import Mathlib

/-!
Verification of the picture-process-tools batch image pipeline.

The development shallowly embeds the Go sources:
  * `internal/processor/processor.go` (resize geometry, output-path
    generation, format selection, save dispatch), and
  * `cmd/root.go` (input validation, file discovery and classification,
    batch mode decision, bounded worker pool).

Go `float64` arithmetic in the resize geometry is modelled bit-exactly:
binary64 values are embedded in `ℚ` and every operation applies IEEE
round-to-nearest-even to its exact result. Go machine `int` is modelled
by `Int`. External collaborators (the image codecs, `path/filepath`,
`strings`) are modelled from their documented contracts, as the spec
places them out of scope.
-/

namespace PictureTools

/-! ## Models of the Go standard-library helpers used by the code -/

/-- Model of Go `strings.ToLower` (ASCII case folding suffices for the
extension strings compared by this program). -/
def stringToLower (s : String) : String :=
  String.mk (s.toList.map Char.toLower)

/-- Auxiliary scan for `filepathExt`: walks the reversed character list of a
path, accumulating characters until the last dot of the final path element
is found; stops with no extension at a path separator. -/
def extOfRev (acc : List Char) : List Char → Option String
  | [] => none
  | c :: rest =>
    if c = '/' then none
    else if c = '.' then some (String.mk ('.' :: acc))
    else extOfRev (c :: acc) rest

/-- Model of Go `path/filepath.Ext`: the suffix beginning at the final dot
in the final element of the path; empty if there is no dot. -/
def filepathExt (path : String) : String :=
  match extOfRev [] path.toList.reverse with
  | some e => e
  | none => ""

/-- Model of Go `path/filepath.Base`: the last element of the path after
dropping trailing slashes; "." for the empty path, "/" for all-slash
paths. -/
def filepathBase (path : String) : String :=
  if path = "" then "."
  else
    let r := path.toList.reverse.dropWhile (fun c => c = '/')
    let base := (r.takeWhile (fun c => c ≠ '/')).reverse
    if base = [] then "/" else String.mk base

/-- Model of Go `path/filepath.Join` on two elements, for already-clean
arguments (the cleaning pass of the real `Join` is the identity on the
slash-free components this program produces). -/
def filepathJoin (dir name : String) : String :=
  if dir = "" then name
  else if name = "" then dir
  else dir ++ "/" ++ name

/-- Model of Go `strings.TrimSuffix`: removes one occurrence of the given
suffix when present. -/
def trimSuffix (s suffix : String) : String :=
  if suffix.toList.isSuffixOf s.toList then
    String.mk (s.toList.take (s.toList.length - suffix.toList.length))
  else s

/-- Go truncating conversion `int(x)` from a floating value, modelled on
`ℚ`: rounds toward zero. -/
def goTrunc (q : ℚ) : Int :=
  if q < 0 then -⌊-q⌋ else ⌊q⌋

/-! ## Bit-exact model of IEEE-754 binary64 arithmetic

The resize geometry of `resizeImage` runs on Go `float64`. Its values
and operations are modelled bit-exactly inside `ℚ`: a binary64 value is
a rational `m * 2^e` with `|m| < 2^53`, every arithmetic operation
rounds its exact result to the nearest such value with ties to even
(IEEE round-to-nearest-even, the Go rounding mode), and comparisons are
exact on values. The exponent is unbounded — overflow, underflow and
subnormal behaviour cannot be reached by the magnitudes this program
computes on integer dimensions. -/

/-- Fuel-driven binary length of a natural number, written with
structural recursion on the fuel so that the kernel can evaluate it;
`bitsAux n n` is the number of binary digits of `n`. -/
def bitsAux : Nat → Nat → Nat
  | 0, _ => 0
  | fuel+1, n => if n = 0 then 0 else bitsAux fuel (n / 2) + 1

/-- Number of binary digits of a natural number (0 for 0). -/
def natBits (n : Nat) : Nat := bitsAux n n

/-- Binade exponent of a positive rational: the unique `e` with
`2^e ≤ q < 2^(e+1)`, computed from the bit lengths of numerator and
denominator plus one comparison. -/
def floatExp (q : ℚ) : Int :=
  let e1 : Int := (natBits q.num.natAbs : Int) - (natBits q.den : Int) - 1
  if q < 2 ^ (e1 + 1) then e1 else e1 + 1

/-- Nearest integer to a rational, ties to even. -/
def roundTiesEven (m : ℚ) : Int :=
  if m - ⌊m⌋ < 1/2 then ⌊m⌋
  else if 1/2 < m - ⌊m⌋ then ⌊m⌋ + 1
  else if ⌊m⌋ % 2 = 0 then ⌊m⌋ else ⌊m⌋ + 1

/-- Rounds a rational to the nearest integer multiple of `2^e`, ties to
even — the rounding step shared by every binary64 operation. -/
def roundAt (q : ℚ) (e : Int) : ℚ :=
  (roundTiesEven (q / 2 ^ e) : ℚ) * 2 ^ e

/-- Correct rounding of an exact rational result to binary64
(round-to-nearest-even, 53-bit significand, unbounded exponent). Go's
`float64` division, multiplication and int-to-float conversion are each
one exact operation followed by this rounding. -/
def roundFloat64 (q : ℚ) : ℚ :=
  if q = 0 then 0
  else if 0 < q then roundAt q (floatExp q - 52)
  else -roundAt (-q) (floatExp (-q) - 52)

/-! ## Data model of the processor package -/

/-- Embedding of `processor.Config` from `internal/processor/processor.go`. -/
structure Config where
  OutputFormat : String
  MaxWidth : Int
  MaxHeight : Int
  Quality : Int
  OutputDir : String
  deriving DecidableEq

/-- Model of a decoded raster image (`image.Image`): its bounds width and
height (`Bounds().Max.X - Bounds().Min.X`, likewise for Y), plus an
abstract tag standing for the pixel buffer, so that returning the input
image unchanged is distinguishable from rebuilding one with equal
dimensions. -/
structure Img where
  width : Int
  height : Int
  pixels : Nat
  deriving DecidableEq

/-- Modelled external codec call `imaging.Resize`: resamples the pixel
buffer of the image to the requested dimensions. The library's special
handling of zero or negative requested dimensions is not modelled; no
claim depends on it. -/
def imagingResize (img : Img) (w h : Int) : Img :=
  { width := w, height := h, pixels := img.pixels }

/-- Geometry of `resizeImage` (processor.go lines 107-133), the spec's
`computeTargetSize`: identity when the image already fits the bounding
box, otherwise the truncation of both dimensions scaled by the smaller of
`maxWidth/width` and `maxHeight/height`, with every `float64` operation
of the Go source — the four `float64(...)` conversions, the two
divisions, the two multiplications — modelled bit-exactly by
`roundFloat64` and `int(...)` by `goTrunc`. Division by zero (reachable
only for a zero dimension whose partner exceeds its maximum) is not
modelled: Go produces `+Inf` there, the `ℚ` model produces 0; no claim
depends on that corner. -/
def computeTargetSize (width height maxWidth maxHeight : Int) : Int × Int :=
  if width ≤ maxWidth ∧ height ≤ maxHeight then (width, height)
  else
    let wf : ℚ := roundFloat64 (width : ℚ)
    let hf : ℚ := roundFloat64 (height : ℚ)
    let widthScale : ℚ := roundFloat64 (roundFloat64 (maxWidth : ℚ) / wf)
    let heightScale : ℚ := roundFloat64 (roundFloat64 (maxHeight : ℚ) / hf)
    let scale : ℚ := if widthScale < heightScale then widthScale else heightScale
    (goTrunc (roundFloat64 (wf * scale)), goTrunc (roundFloat64 (hf * scale)))

/-- Embedding of `resizeImage` (processor.go lines 107-133): returns the
image itself when it fits within the maxima, otherwise resamples it to
the computed target size. -/
def resizeImage (img : Img) (maxWidth maxHeight : Int) : Img :=
  if img.width ≤ maxWidth ∧ img.height ≤ maxHeight then img
  else
    let p := computeTargetSize img.width img.height maxWidth maxHeight
    imagingResize img p.1 p.2

/-- Embedding of `generateOutputPath` (processor.go lines 135-151). -/
def generateOutputPath (inputPath outputDir format : String) : String :=
  let filename := filepathBase inputPath
  let ext := filepathExt filename
  let name := trimSuffix filename ext
  let newExt :=
    if format = "jpg" then ".jpg"
    else if format = "png" then ".png"
    else ".jpg"
  filepathJoin outputDir (name ++ newExt)

/-- Embedding of `generateOutputPathWithSameFormat` (processor.go lines
154-157). -/
def generateOutputPathWithSameFormat (inputPath outputDir : String) : String :=
  filepathJoin outputDir (filepathBase inputPath)

/-- Encoded container formats relevant to this program. -/
inductive ImgFormat where
  | jpeg
  | png
  | bmp
  | tiff
  | heic
  | other
  deriving DecidableEq

/-- Observable effect of `saveImage` (processor.go lines 159-177): which
encoder ran, the quality option handed to it (`none` for the PNG encoder,
which takes no quality), and what was written where. -/
structure SaveResult where
  path : String
  encoding : ImgFormat
  jpegQuality : Option Int
  image : Img
  deriving DecidableEq

/-- Embedding of `saveImage` (processor.go lines 159-177): the "jpg" case
runs the JPEG encoder at the given quality, the "png" case runs the PNG
encoder (default compression, no quality option), and every other format
string falls through to the JPEG encoder. -/
def saveImage (img : Img) (path format : String) (quality : Int) : SaveResult :=
  if format = "jpg" then
    { path := path, encoding := ImgFormat.jpeg, jpegQuality := some quality, image := img }
  else if format = "png" then
    { path := path, encoding := ImgFormat.png, jpegQuality := none, image := img }
  else
    { path := path, encoding := ImgFormat.jpeg, jpegQuality := some quality, image := img }

/-- Embedding of `ProcessImage` (processor.go lines 23-38). The decode
step `loadImage` is an external codec call; its outcome is passed in as
`decoded` (`none` models a decode error, which the function returns
without further work). -/
def ProcessImage (decoded : Option Img) (inputPath : String) (config : Config) :
    Option SaveResult :=
  match decoded with
  | none => none
  | some img =>
    let resized := resizeImage img config.MaxWidth config.MaxHeight
    let outputPath := generateOutputPath inputPath config.OutputDir config.OutputFormat
    some (saveImage resized outputPath config.OutputFormat config.Quality)

/-- Embedding of `ProcessImageWithSameFormat` (processor.go lines 41-63):
after resizing, the output keeps the input basename, and the save format
is "png" exactly when the lowercased input extension is ".png", "jpg"
otherwise (the declared default). -/
def ProcessImageWithSameFormat (decoded : Option Img) (inputPath : String)
    (config : Config) : Option SaveResult :=
  match decoded with
  | none => none
  | some img =>
    let resized := resizeImage img config.MaxWidth config.MaxHeight
    let outputPath := generateOutputPathWithSameFormat inputPath config.OutputDir
    let ext := filepathExt (stringToLower inputPath)
    let format := if ext = ".png" then "png" else "jpg"
    some (saveImage resized outputPath format config.Quality)

/-- Container format implied by a file's (lowercased) extension; used to
state format preservation. This is a spec-side classification, not code
of the repository. -/
def inputContainerFormat (path : String) : ImgFormat :=
  let ext := filepathExt (stringToLower path)
  if ext = ".jpg" ∨ ext = ".jpeg" then ImgFormat.jpeg
  else if ext = ".png" then ImgFormat.png
  else if ext = ".bmp" then ImgFormat.bmp
  else if ext = ".tiff" ∨ ext = ".tif" then ImgFormat.tiff
  else if ext = ".heic" ∨ ext = ".heif" then ImgFormat.heic
  else ImgFormat.other

/-! ## Embedding of the cmd package: discovery, classification, validation -/

/-- Extension set accepted by `getImageFiles` (root.go lines 145-150); the
Go map with these keys is modelled as a list used for membership tests. -/
def imageExts : List String :=
  [".heic", ".heif", ".jpg", ".jpeg", ".png", ".bmp", ".tiff", ".tif"]

/-- Inclusion test applied by the walk function of `getImageFiles`
(root.go lines 156-160): the extension of the lowercased path is in the
accepted set. -/
def isImageFile (path : String) : Bool :=
  imageExts.contains (filepathExt (stringToLower path))

/-- Pure directory-tree model over which `filepath.Walk` is interpreted. -/
inductive Entry where
  | file (name : String)
  | dir (name : String) (children : List Entry)

/-- Signal returned by a walk function, as `filepath.Walk` distinguishes
them: continue normally, or skip the directory just visited. Real I/O
errors cannot arise over the pure tree model. -/
inductive WalkSignal where
  | ok
  | skipDir
  deriving DecidableEq

/-- The walk function of `getImageFiles` (root.go lines 152-165) as
called on a directory entry: it returns `SkipDir` exactly when the walk
is non-recursive and the directory is not the root itself. -/
def walkFuncOnDir (recursive : Bool) (rootDir path : String) : WalkSignal :=
  if ¬ recursive ∧ path ≠ rootDir then WalkSignal.skipDir else WalkSignal.ok

mutual

/-- Interpretation of Go `filepath.Walk` over one tree entry, running the
walk function of `getImageFiles` (root.go lines 152-165). Files are
collected when `isImageFile` accepts them. For a directory, a `SkipDir`
signal makes `Walk` skip its contents without reporting an error (the
documented `filepath.Walk` contract); otherwise the walk descends. -/
def walkEntry (recursive : Bool) (rootDir pre : String) :
    Entry → Except String (List String)
  | Entry.file name =>
    let path := pre ++ "/" ++ name
    if isImageFile path then Except.ok [path] else Except.ok []
  | Entry.dir name children =>
    let path := pre ++ "/" ++ name
    match walkFuncOnDir recursive rootDir path with
    | WalkSignal.skipDir => Except.ok []
    | WalkSignal.ok => walkChildren recursive rootDir path children

/-- Walks the entries of one directory in visitation order, concatenating
the collected files; an error from any entry propagates. -/
def walkChildren (recursive : Bool) (rootDir pre : String) :
    List Entry → Except String (List String)
  | [] => Except.ok []
  | e :: rest => do
    let l ← walkEntry recursive rootDir pre e
    let r ← walkChildren recursive rootDir pre rest
    Except.ok (l ++ r)

end

/-- Embedding of `getImageFiles` (root.go lines 143-169) over a pure tree
of directory entries rooted at `dir`. `filepath.Walk` visits the root
directory itself first; the walk function returns `ok` there because the
path equals the root, so the walk proceeds into the root's entries. -/
def getImageFiles (dir : String) (recursive : Bool) (tree : List Entry) :
    Except String (List String) :=
  walkChildren recursive dir dir tree

/-- Embedding of `separateImageFiles` (root.go lines 172-186): partitions
paths into HEIC/HEIF-classified ones and regular ones, preserving order. -/
def separateImageFiles : List String → List String × List String
  | [] => ([], [])
  | file :: rest =>
    let p := separateImageFiles rest
    let ext := filepathExt (stringToLower file)
    if ext = ".heic" ∨ ext = ".heif" then (file :: p.1, p.2)
    else (p.1, file :: p.2)

/-- The two batch processing modes of the orchestrator. -/
inductive Mode where
  | conversion
  | preserving
  deriving DecidableEq

/-- Mode decision of `runProcess` (root.go lines 130-138): when any
HEIC/HEIF file was discovered, ALL discovered files are processed in
conversion mode; otherwise the regular files are processed in
format-preserving mode. Returns the chosen mode and the list of files
dispatched to the workers. -/
def batchPlan (imageFiles : List String) : Mode × List String :=
  let p := separateImageFiles imageFiles
  if 0 < p.1.length then (Mode.conversion, imageFiles)
  else (Mode.preserving, p.2)

/-- Embedding of `validateInputs` (root.go lines 62-89). The existence
check `os.Stat` + `os.IsNotExist` on the input directory is abstracted
by the boolean `inputDirExists`. Returns the error message, or `none`
when the configuration is accepted. -/
def validateInputs (outputFormat : String) (inputDirExists : Bool)
    (quality maxWidth maxHeight workers : Int) : Option String :=
  if outputFormat ≠ "jpg" ∧ outputFormat ≠ "png" then
    some ("output format must be jpg or png")
  else if ¬ inputDirExists then
    some ("input directory does not exist")
  else if quality < 1 ∨ 100 < quality then
    some ("quality must be between 1 and 100")
  else if maxWidth ≤ 0 ∨ maxHeight ≤ 0 then
    some ("maximum dimensions must be positive")
  else if workers ≤ 0 then
    some ("worker count must be positive")
  else none

/-- Environment of one `runProcess` run (root.go lines 91-141): the
flag-backed configuration, plus the outcomes of the external effects the
function performs (directory creation, the file scan, and per-file
processing success). -/
structure RunEnv where
  outputFormat : String
  inputDirExists : Bool
  quality : Int
  maxWidth : Int
  maxHeight : Int
  workers : Int
  outputDirCreated : Bool
  scanResult : Except String (List String)
  fileFails : String → Bool

/-- Observable outcome of `runProcess`: the process exit code and the
per-file outcomes of the dispatched work (file, success flag). -/
structure RunOutcome where
  exitCode : Int
  processed : List (String × Bool)
  deriving DecidableEq

/-- Embedding of `runProcess` (root.go lines 91-141). Each `os.Exit(1)`
site is modelled as exit code 1 with no work dispatched; a normal return
is exit code 0 (the Go process exits 0 on normal termination). Per-file
failures are printed by the workers and never influence control flow, so
they appear only in the `processed` outcomes. -/
def runProcess (env : RunEnv) : RunOutcome :=
  match validateInputs env.outputFormat env.inputDirExists env.quality
      env.maxWidth env.maxHeight env.workers with
  | some _ => { exitCode := 1, processed := [] }
  | none =>
    if ¬ env.outputDirCreated then { exitCode := 1, processed := [] }
    else
      match env.scanResult with
      | Except.error _ => { exitCode := 1, processed := [] }
      | Except.ok imageFiles =>
        if imageFiles.length = 0 then { exitCode := 0, processed := [] }
        else
          let plan := batchPlan imageFiles
          { exitCode := 0,
            processed := plan.2.map (fun f => (f, ¬ env.fileFails f)) }

/-! ## Worker-pool model

`processImagesConcurrently` and `processImagesWithSameFormat` (root.go
lines 189-232) run one goroutine per file, guarded by a buffered channel
of capacity `workers` used as a counting semaphore, and a `WaitGroup`
barrier. The interleaved executions are modelled as a labelled
transition system over per-task statuses: a task acquires a slot only
when fewer than `K` slots are held (a send on the buffered channel), its
work then succeeds or fails, and the deferred receive releases the slot
unconditionally — the release transition does not depend on the work's
outcome. `wg.Wait` returns exactly in the states where every task is
finished. -/

/-- Status of one task goroutine: not yet started; holding a slot and
working; work completed (successfully or not) with the slot still held;
or finished with the slot released. -/
inductive TaskStatus where
  | pending
  | running
  | worked (ok : Bool)
  | finished (ok : Bool)
  deriving DecidableEq

/-- Whether a task currently holds a concurrency slot. -/
def holdsSlot : TaskStatus → Bool
  | TaskStatus.running => true
  | TaskStatus.worked _ => true
  | _ => false

/-- Number of concurrency slots held in a pool state. -/
def slotCount (s : List TaskStatus) : Nat :=
  s.countP holdsSlot

/-- One interleaving step of the worker pool with bound `K`:
`acquire` is the semaphore send (enabled only below capacity), `work` is
the per-task function completing with outcome `ok`, and `release` is the
deferred semaphore receive, enabled for any outcome. -/
inductive PoolStep (K : Nat) : List TaskStatus → List TaskStatus → Prop where
  | acquire (s : List TaskStatus) (i : Nat)
      (hi : s[i]? = some TaskStatus.pending) (hK : slotCount s < K) :
      PoolStep K s (s.set i TaskStatus.running)
  | work (s : List TaskStatus) (i : Nat) (ok : Bool)
      (hi : s[i]? = some TaskStatus.running) :
      PoolStep K s (s.set i (TaskStatus.worked ok))
  | release (s : List TaskStatus) (i : Nat) (ok : Bool)
      (hi : s[i]? = some (TaskStatus.worked ok)) :
      PoolStep K s (s.set i (TaskStatus.finished ok))

/-- Pool states reachable from the initial state of `N` pending tasks. -/
def PoolReachable (K N : Nat) (s : List TaskStatus) : Prop :=
  Relation.ReflTransGen (PoolStep K) (List.replicate N TaskStatus.pending) s

/-- The end-of-batch barrier `wg.Wait` returns exactly when every task is
finished. -/
def batchDone (s : List TaskStatus) : Prop :=
  ∀ st ∈ s, ∃ ok, st = TaskStatus.finished ok

/-- Interleaving schedule used to exhibit a complete pool run: the state
in which the first `j` of `N` tasks are finished with their prescribed
outcomes and the rest have not started. -/
def doneUpTo (fate : Nat → Bool) (N j : Nat) : List TaskStatus :=
  (List.range N).map
    (fun k => if k < j then TaskStatus.finished (fate k) else TaskStatus.pending)

/-! ## Spec-side definitions used to state the claims -/

/-- Resize geometry exactly as the spec words it: scale both dimensions
by `min(maxWidth/width, maxHeight/height)` and truncate. Spec-side
definition, compared against `computeTargetSize`. -/
def specTargetSize (w h maxW maxH : Int) : Int × Int :=
  let scale : ℚ := min ((maxW : ℚ) / (w : ℚ)) ((maxH : ℚ) / (h : ℚ))
  (⌊(w : ℚ) * scale⌋, ⌊(h : ℚ) * scale⌋)

/-- Spec-side output-name component: the input's basename without its
extension. -/
def basenameNoExt (p : String) : String :=
  let filename := filepathBase p
  trimSuffix filename (filepathExt filename)

/-- Spec-side target extension for conversion mode: ".jpg" for jpeg
output, ".png" for png output, ".jpg" for any unrecognized format. -/
def specTargetExt (format : String) : String :=
  if format = "jpg" then ".jpg"
  else if format = "png" then ".png"
  else ".jpg"

mutual

/-- Spec-side list of file paths the walk visits under one entry: every
file when recursive, none below a subdirectory otherwise. -/
def visitedUnder (recursive : Bool) (pre : String) : Entry → List String
  | Entry.file name => [pre ++ "/" ++ name]
  | Entry.dir name children =>
    if recursive then visitedUnderList recursive (pre ++ "/" ++ name) children
    else []

/-- Spec-side list of file paths the walk visits under a list of entries,
in visitation order. -/
def visitedUnderList (recursive : Bool) (pre : String) : List Entry → List String
  | [] => []
  | e :: rest => visitedUnder recursive pre e ++ visitedUnderList recursive pre rest

end

/-- Spec-side list of the files directly inside a directory (no descent
into subdirectories). -/
def directFiles (dir : String) : List Entry → List String
  | [] => []
  | Entry.file name :: rest => (dir ++ "/" ++ name) :: directFiles dir rest
  | Entry.dir _ _ :: rest => directFiles dir rest

/-- The classifier example tree of the spec: files a.jpg, b.heic, c.png,
d.txt and a subdirectory sub containing e.jpg. -/
def exampleTree : List Entry :=
  [Entry.file ("a.jpg"), Entry.file ("b.heic"), Entry.file ("c.png"),
   Entry.file ("d.txt"), Entry.dir ("sub") [Entry.file ("e.jpg")]]

/-- Concrete configuration requesting png output, used for counterexample
evaluation. -/
def exampleConfigPng : Config :=
  { OutputFormat := "png", MaxWidth := 1000, MaxHeight := 1000, Quality := 85,
    OutputDir := "out" }

/-- Concrete configuration requesting jpg output, used for witness
evaluation. -/
def exampleConfigJpg : Config :=
  { OutputFormat := "jpg", MaxWidth := 1920, MaxHeight := 1920, Quality := 85,
    OutputDir := "out" }

/-- Concrete run environment whose quality flag is out of range, used for
witness evaluation. -/
def exampleBadEnv : RunEnv :=
  { outputFormat := "jpg", inputDirExists := true, quality := 0, maxWidth := 1920,
    maxHeight := 1920, workers := 4, outputDirCreated := true,
    scanResult := Except.ok [], fileFails := fun _ => false }

/-! ## Helper lemmas -/

theorem separateImageFiles_snd_eq (files : List String)
    (h : (separateImageFiles files).1 = []) : (separateImageFiles files).2 = files := by
  induction files with
  | nil => rfl
  | cons f rest ih =>
    by_cases hf : filepathExt (stringToLower f) = ".heic" ∨
        filepathExt (stringToLower f) = ".heif"
    · simp [separateImageFiles, hf] at h
    · simp only [separateImageFiles, if_neg hf] at h ⊢
      exact congrArg (f :: ·) (ih h)

theorem goTrunc_eq_floor (q : ℚ) (h : 0 ≤ q) : goTrunc q = ⌊q⌋ := by
  simp [goTrunc, not_lt.mpr h]

theorem ite_lt_eq_min (a b : ℚ) : (if a < b then a else b) = min a b := by
  by_cases h : a < b
  · simp [h, min_eq_left h.le]
  · simp [h, min_eq_right (le_of_not_lt h)]

theorem bitsAux_zero : ∀ fuel, bitsAux fuel 0 = 0
  | 0 => rfl
  | _+1 => by simp [bitsAux]

theorem bitsAux_correct : ∀ (fuel n : Nat), n ≤ fuel → 1 ≤ n →
    2 ^ (bitsAux fuel n - 1) ≤ n ∧ n < 2 ^ bitsAux fuel n
  | 0, n, hfuel, hn => by omega
  | fuel+1, n, hfuel, hn => by
    have hne : ¬ n = 0 := by omega
    rw [bitsAux, if_neg hne]
    by_cases h1 : n = 1
    · subst h1
      simp [bitsAux_zero]
    · have hd1 : 1 ≤ n / 2 := by omega
      have hdf : n / 2 ≤ fuel := by omega
      obtain ⟨hlo, hhi⟩ := bitsAux_correct fuel (n / 2) hdf hd1
      set b := bitsAux fuel (n / 2) with hb
      have hb1 : 1 ≤ b := by
        by_contra hc
        have : b = 0 := by omega
        rw [this] at hhi
        omega
      constructor
      · have hb2 : b + 1 - 1 = (b - 1) + 1 := by omega
        rw [hb2, pow_succ]
        omega
      · have h3 : 2 ^ (b + 1) = 2 * 2 ^ b := by rw [pow_succ]; ring
        rw [h3]
        omega

theorem natBits_correct (n : Nat) (h : 1 ≤ n) :
    2 ^ (natBits n - 1) ≤ n ∧ n < 2 ^ natBits n :=
  bitsAux_correct n n le_rfl h

theorem floatExp_correct (q : ℚ) (hq : 0 < q) :
    (2:ℚ) ^ floatExp q ≤ q ∧ q < 2 ^ (floatExp q + 1) := by
  have hnum : 1 ≤ q.num.natAbs := by
    have := Rat.num_pos.mpr hq
    omega
  have hden : 1 ≤ q.den := q.pos
  obtain ⟨hn1, hn2⟩ := natBits_correct q.num.natAbs hnum
  obtain ⟨hd1, hd2⟩ := natBits_correct q.den hden
  set bn := natBits q.num.natAbs with hbn
  set bd := natBits q.den with hbd
  have hbn1 : 1 ≤ bn := by
    by_contra hc
    have : bn = 0 := by omega
    rw [this] at hn2
    omega
  have hbd1 : 1 ≤ bd := by
    by_contra hc
    have : bd = 0 := by omega
    rw [this] at hd2
    omega
  have hcast : (q.num : ℚ) = (q.num.natAbs : ℚ) := by
    rw [Int.cast_natAbs, abs_of_nonneg (Rat.num_pos.mpr hq).le]
  have hqeq : q = (q.num.natAbs : ℚ) / (q.den : ℚ) := by
    rw [← hcast]
    exact (Rat.num_div_den q).symm
  have hdenq : (0:ℚ) < (q.den : ℚ) := by exact_mod_cast hden
  set e1 : Int := (bn : Int) - (bd : Int) - 1 with he1
  have hql : (2:ℚ) ^ e1 ≤ q := by
    rw [hqeq]
    have hnumq : ((2:ℚ) ^ (bn - 1 : Nat) : ℚ) ≤ (q.num.natAbs : ℚ) := by exact_mod_cast hn1
    have hdenq2 : (q.den : ℚ) ≤ (2:ℚ) ^ (bd : Nat) := by
      have : (q.den : Nat) ≤ 2 ^ bd := hd2.le
      exact_mod_cast this
    have h4 : (2:ℚ) ^ e1 = (2:ℚ) ^ (bn - 1 : Nat) / (2:ℚ) ^ (bd : Nat) := by
      rw [div_eq_mul_inv, ← zpow_natCast (2:ℚ) (bn - 1), ← zpow_natCast (2:ℚ) bd,
        ← zpow_neg, ← zpow_add₀ (two_ne_zero)]
      congr 1
      omega
    rw [h4]
    exact div_le_div (by positivity) hnumq hdenq hdenq2
  have hqu : q < (2:ℚ) ^ (e1 + 2) := by
    rw [hqeq]
    have hnumq : (q.num.natAbs : ℚ) < (2:ℚ) ^ (bn : Nat) := by exact_mod_cast hn2
    have hdenq2 : (2:ℚ) ^ (bd - 1 : Nat) ≤ (q.den : ℚ) := by exact_mod_cast hd1
    have h4 : (2:ℚ) ^ (e1 + 2) = (2:ℚ) ^ (bn : Nat) / (2:ℚ) ^ (bd - 1 : Nat) := by
      rw [div_eq_mul_inv, ← zpow_natCast (2:ℚ) bn, ← zpow_natCast (2:ℚ) (bd - 1),
        ← zpow_neg, ← zpow_add₀ (two_ne_zero)]
      congr 1
      omega
    rw [h4]
    rw [div_lt_div_iff hdenq (by positivity)]
    calc (q.num.natAbs : ℚ) * (2:ℚ) ^ (bd - 1 : Nat)
        < (2:ℚ) ^ (bn : Nat) * (2:ℚ) ^ (bd - 1 : Nat) := by
          exact mul_lt_mul_of_pos_right hnumq (by positivity)
      _ ≤ (2:ℚ) ^ (bn : Nat) * (q.den : ℚ) := by
          exact mul_le_mul_of_nonneg_left hdenq2 (by positivity)
  rw [floatExp]
  simp only [← hbn, ← hbd, ← he1]
  by_cases hcase : q < 2 ^ (e1 + 1)
  · rw [if_pos hcase]
    exact ⟨hql, hcase⟩
  · rw [if_neg hcase]
    constructor
    · exact le_of_not_lt hcase
    · have : e1 + 1 + 1 = e1 + 2 := by ring
      rw [this]
      exact hqu

theorem roundTiesEven_abs_le (m : ℚ) : |(roundTiesEven m : ℚ) - m| ≤ 1/2 := by
  have hr0 : (0:ℚ) ≤ m - ⌊m⌋ := sub_nonneg.mpr (Int.floor_le m)
  have hr1 : m - ⌊m⌋ < 1 := by
    have := Int.lt_floor_add_one m
    linarith
  rw [roundTiesEven]
  split_ifs with h1 h2 h3
  · rw [abs_sub_comm, abs_of_nonneg hr0]
    linarith
  · push_cast
    rw [abs_of_nonneg (by linarith)]
    linarith
  · have hre : m - ⌊m⌋ = 1/2 := le_antisymm (le_of_not_lt h2) (le_of_not_lt h1)
    rw [abs_sub_comm, abs_of_nonneg hr0]
    linarith
  · have hre : m - ⌊m⌋ = 1/2 := le_antisymm (le_of_not_lt h2) (le_of_not_lt h1)
    push_cast
    rw [abs_of_nonneg (by linarith)]
    linarith

theorem roundTiesEven_intCast (k : Int) : roundTiesEven (k : ℚ) = k := by
  simp [roundTiesEven]

theorem roundAt_sub_abs_le (q : ℚ) (e : Int) : |roundAt q e - q| ≤ 2 ^ e / 2 := by
  have hpow : (0:ℚ) < 2 ^ e := by positivity
  have hq : q = q / 2 ^ e * 2 ^ e := by
    rw [div_mul_cancel₀ _ (ne_of_gt hpow)]
  rw [roundAt]
  calc |(roundTiesEven (q / 2 ^ e) : ℚ) * 2 ^ e - q|
      = |((roundTiesEven (q / 2 ^ e) : ℚ) - q / 2 ^ e) * 2 ^ e| := by
        congr 1
        rw [sub_mul, ← hq]
    _ = |(roundTiesEven (q / 2 ^ e) : ℚ) - q / 2 ^ e| * 2 ^ e := by
        rw [abs_mul, abs_of_pos hpow]
    _ ≤ 1/2 * 2 ^ e := mul_le_mul_of_nonneg_right (roundTiesEven_abs_le _) hpow.le
    _ = 2 ^ e / 2 := by ring

theorem roundAt_intMul (k : Int) (e : Int) :
    roundAt ((k : ℚ) * 2 ^ e) e = (k : ℚ) * 2 ^ e := by
  have hpow : (0:ℚ) < 2 ^ e := by positivity
  rw [roundAt, mul_div_cancel_right₀ _ (ne_of_gt hpow), roundTiesEven_intCast]

theorem roundFloat64_pos_eq (q : ℚ) (hq : 0 < q) :
    roundFloat64 q = roundAt q (floatExp q - 52) := by
  rw [roundFloat64, if_neg (ne_of_gt hq), if_pos hq]

theorem roundFloat64_abs_err (q : ℚ) (hq : 0 < q) :
    |roundFloat64 q - q| ≤ q * 2 ^ (-53 : ℤ) := by
  rw [roundFloat64_pos_eq q hq]
  refine le_trans (roundAt_sub_abs_le q (floatExp q - 52)) ?_
  have a1 : (2:ℚ) ^ (floatExp q - 52) / 2 = 2 ^ (floatExp q - 53) := by
    rw [div_eq_mul_inv, ← zpow_neg_one (2:ℚ), ← zpow_add₀ (two_ne_zero : (2:ℚ) ≠ 0)]
    congr 1
    ring
  have a2 : (2:ℚ) ^ floatExp q * 2 ^ (-53 : ℤ) = 2 ^ (floatExp q - 53) := by
    rw [← zpow_add₀ (two_ne_zero : (2:ℚ) ≠ 0)]
    congr 1
  rw [a1, ← a2]
  exact mul_le_mul_of_nonneg_right (floatExp_correct q hq).1 (by positivity)

theorem roundFloat64_le_mul (q : ℚ) (hq : 0 < q) :
    roundFloat64 q ≤ q * (1 + 2 ^ (-53 : ℤ)) := by
  have h2 := (abs_le.mp (roundFloat64_abs_err q hq)).2
  rw [mul_add, mul_one]
  linarith

theorem le_roundFloat64_mul (q : ℚ) (hq : 0 < q) :
    q * (1 - 2 ^ (-53 : ℤ)) ≤ roundFloat64 q := by
  have h2 := (abs_le.mp (roundFloat64_abs_err q hq)).1
  rw [mul_sub, mul_one]
  linarith

theorem twoPowNeg53_lt_one : (2:ℚ) ^ (-53 : ℤ) < 1 := by
  norm_num

theorem roundFloat64_pos (q : ℚ) (hq : 0 < q) : 0 < roundFloat64 q := by
  have h1 := le_roundFloat64_mul q hq
  have h2 := twoPowNeg53_lt_one
  nlinarith

theorem roundFloat64_intCast (n : Int) (h0 : 0 < n) (h53 : n < 2 ^ 53) :
    roundFloat64 (n : ℚ) = n := by
  have hq : (0:ℚ) < (n:ℚ) := by exact_mod_cast h0
  rw [roundFloat64_pos_eq _ hq]
  obtain ⟨he1, he2⟩ := floatExp_correct (n:ℚ) hq
  set e := floatExp (n:ℚ) with he
  have hee : e ≤ 52 := by
    by_contra hc
    push_neg at hc
    have h1 : (2:ℚ) ^ (53:ℤ) ≤ (2:ℚ) ^ e := by
      refine (zpow_le_zpow_iff_right₀ (by norm_num : (1:ℚ) < 2)).mpr ?_
      omega
    have h2 : (2:ℚ) ^ (53:ℤ) ≤ (n:ℚ) := le_trans h1 he1
    have h3 : ((2:ℤ) ^ (53:ℕ) : ℚ) ≤ (n:ℚ) := by
      rw [show ((2:ℚ) ^ (53:ℤ)) = (2:ℚ) ^ (53:ℕ) from zpow_natCast 2 53] at h2
      exact_mod_cast h2
    have : (2:ℤ) ^ (53:ℕ) ≤ n := by exact_mod_cast h3
    omega
  have hze : 0 ≤ e := by
    by_contra hc
    push_neg at hc
    have h1 : (2:ℚ) ^ (e + 1) ≤ (2:ℚ) ^ (0:ℤ) := by
      refine (zpow_le_zpow_iff_right₀ (by norm_num : (1:ℚ) < 2)).mpr ?_
      omega
    rw [zpow_zero] at h1
    have h2 : (n:ℚ) < 1 := lt_of_lt_of_le he2 h1
    have : n < 1 := by exact_mod_cast h2
    omega
  have hk : ((n * 2 ^ (52 - e).toNat : Int) : ℚ) * 2 ^ (e - 52) = (n:ℚ) := by
    push_cast
    rw [mul_assoc, ← zpow_natCast (2:ℚ) (52 - e).toNat,
      ← zpow_add₀ (two_ne_zero : (2:ℚ) ≠ 0)]
    have hz : ((52 - e).toNat : ℤ) + (e - 52) = 0 := by omega
    rw [hz, zpow_zero, mul_one]
  rw [← hk, roundAt_intMul]

theorem floatExp_eq_of (q : ℚ) (e : Int) (hq : 0 < q)
    (h1 : (2:ℚ) ^ e ≤ q) (h2 : q < 2 ^ (e + 1)) : floatExp q = e := by
  obtain ⟨g1, g2⟩ := floatExp_correct q hq
  by_contra hne
  rcases lt_or_gt_of_ne hne with hlt | hgt
  · have h3 : (2:ℚ) ^ (floatExp q + 1) ≤ 2 ^ e := by
      refine (zpow_le_zpow_iff_right₀ (by norm_num : (1:ℚ) < 2)).mpr ?_
      omega
    linarith
  · have h3 : (2:ℚ) ^ (e + 1) ≤ 2 ^ floatExp q := by
      refine (zpow_le_zpow_iff_right₀ (by norm_num : (1:ℚ) < 2)).mpr ?_
      omega
    linarith

theorem roundFloat64_eq_of_rte (q : ℚ) (e : Int) (hq : 0 < q)
    (h1 : (2:ℚ) ^ e ≤ q) (h2 : q < 2 ^ (e + 1)) :
    roundFloat64 q = (roundTiesEven (q / 2 ^ (e - 52)) : ℚ) * 2 ^ (e - 52) := by
  rw [roundFloat64_pos_eq q hq, floatExp_eq_of q e hq h1 h2, roundAt]

theorem roundTiesEven_eq_down (m : ℚ) (n : Int)
    (h1 : (n:ℚ) ≤ m) (h2 : m - n < 1/2) : roundTiesEven m = n := by
  have hfl : ⌊m⌋ = n := by
    rw [Int.floor_eq_iff]
    exact ⟨h1, by linarith⟩
  rw [roundTiesEven, hfl, if_pos h2]

theorem roundTiesEven_eq_up (m : ℚ) (n : Int)
    (h1 : (n:ℚ) ≤ m) (h15 : 1/2 < m - n) (h2 : m < n + 1) :
    roundTiesEven m = n + 1 := by
  have hfl : ⌊m⌋ = n := by
    rw [Int.floor_eq_iff]
    exact ⟨h1, h2⟩
  rw [roundTiesEven, hfl, if_neg (by linarith), if_pos h15]

theorem roundTiesEven_eq_tie_even (m : ℚ) (n : Int)
    (h1 : m - n = 1/2) (heven : n % 2 = 0) : roundTiesEven m = n := by
  have hfl : ⌊m⌋ = n := by
    rw [Int.floor_eq_iff]
    constructor
    · linarith
    · linarith
  rw [roundTiesEven, hfl, if_neg (by linarith), if_neg (by linarith), if_pos heven]

theorem roundTiesEven_eq_tie_odd (m : ℚ) (n : Int)
    (h1 : m - n = 1/2) (hodd : ¬ n % 2 = 0) : roundTiesEven m = n + 1 := by
  have hfl : ⌊m⌋ = n := by
    rw [Int.floor_eq_iff]
    constructor
    · linarith
    · linarith
  rw [roundTiesEven, hfl, if_neg (by linarith), if_neg (by linarith), if_neg hodd]

theorem goTrunc_eq_of (q : ℚ) (t : Int) (h0 : 0 ≤ q)
    (h1 : (t:ℚ) ≤ q) (h2 : q < t + 1) : goTrunc q = t := by
  rw [goTrunc, if_neg (not_lt.mpr h0), Int.floor_eq_iff]
  exact ⟨h1, h2⟩

theorem computeTargetSize_eval (W H MW MH : Int) (wf hf mwf mhf s1 s2 scl pw ph : ℚ)
    (tw th : Int) (hcond : ¬ (W ≤ MW ∧ H ≤ MH))
    (hwf : roundFloat64 ((W:ℚ)) = wf) (hhf : roundFloat64 ((H:ℚ)) = hf)
    (hmwf : roundFloat64 ((MW:ℚ)) = mwf) (hmhf : roundFloat64 ((MH:ℚ)) = mhf)
    (hs1 : roundFloat64 (mwf / wf) = s1) (hs2 : roundFloat64 (mhf / hf) = s2)
    (hscl : (if s1 < s2 then s1 else s2) = scl)
    (hpw : roundFloat64 (wf * scl) = pw) (hph : roundFloat64 (hf * scl) = ph)
    (htw : goTrunc pw = tw) (hth : goTrunc ph = th) :
    computeTargetSize W H MW MH = (tw, th) := by
  simp only [computeTargetSize]
  rw [if_neg hcond, hwf, hhf, hmwf, hmhf, hs1, hs2, hscl, hpw, hph, htw, hth]

theorem floatBound_lt_succ (B : Int) (hB : 0 < B) (hB51 : B ≤ 2 ^ 51) :
    (B:ℚ) * (1 + 2 ^ (-53:ℤ)) * (1 + 2 ^ (-53:ℤ)) < (B:ℚ) + 1 := by
  have hc : (2:ℚ) ^ (-53:ℤ) = 1 / 9007199254740992 := by norm_num
  have hBq : (B:ℚ) ≤ 2 ^ 51 := by
    have h1 : ((2:Int) ^ 51 : ℚ) = (2:ℚ) ^ 51 := by push_cast; ring
    calc (B:ℚ) ≤ ((2:Int) ^ 51 : ℚ) := by exact_mod_cast hB51
      _ = (2:ℚ) ^ 51 := h1
  rw [hc]
  have h2 : (B:ℚ) * (2 * (1/9007199254740992) + (1/9007199254740992) * (1/9007199254740992)) ≤
      (2:ℚ) ^ 51 * (2 * (1/9007199254740992) + (1/9007199254740992) * (1/9007199254740992)) := by
    exact mul_le_mul_of_nonneg_right hBq (by norm_num)
  have h3 : (2:ℚ) ^ 51 *
      (2 * (1/9007199254740992) + (1/9007199254740992) * (1/9007199254740992)) < 1 := by
    norm_num
  nlinarith [h2, h3]

theorem floatProd_trunc_le (D scl : ℚ) (B : Int) (hD : 0 < D) (hscl : 0 < scl)
    (hB : 0 < B) (hB51 : B ≤ 2 ^ 51)
    (hprod : D * scl ≤ (B:ℚ) * (1 + 2 ^ (-53:ℤ))) :
    goTrunc (roundFloat64 (D * scl)) ≤ B := by
  have hx : 0 < D * scl := mul_pos hD hscl
  have h1 : roundFloat64 (D * scl) ≤ D * scl * (1 + 2 ^ (-53:ℤ)) :=
    roundFloat64_le_mul _ hx
  have h2 : D * scl * (1 + 2 ^ (-53:ℤ)) ≤
      (B:ℚ) * (1 + 2 ^ (-53:ℤ)) * (1 + 2 ^ (-53:ℤ)) :=
    mul_le_mul_of_nonneg_right hprod (by positivity)
  have h3 := floatBound_lt_succ B hB hB51
  have h5 : 0 < roundFloat64 (D * scl) := roundFloat64_pos _ hx
  rw [goTrunc, if_neg (not_lt.mpr h5.le)]
  have h7 : roundFloat64 (D * scl) < ((B + 1 : Int) : ℚ) := by
    push_cast
    linarith
  have h8 : ⌊roundFloat64 (D * scl)⌋ < B + 1 := Int.floor_lt.mpr h7
  omega

theorem countP_set_add (p : TaskStatus → Bool) :
    ∀ (l : List TaskStatus) (i : Nat) (a b : TaskStatus), l[i]? = some b →
      (l.set i a).countP p + (if p b then 1 else 0) =
        l.countP p + (if p a then 1 else 0)
  | [], i, a, b, h => by simp at h
  | x :: xs, 0, a, b, h => by
    simp only [List.getElem?_cons_zero, Option.some_inj] at h
    subst h
    simp only [List.set_cons_zero, List.countP_cons]
    omega
  | x :: xs, i+1, a, b, h => by
    simp only [List.getElem?_cons_succ] at h
    have ih := countP_set_add p xs i a b h
    simp only [List.set_cons_succ, List.countP_cons]
    omega

theorem slotCount_le_of_step {K : Nat} {s t : List TaskStatus}
    (hstep : PoolStep K s t) (h : slotCount s ≤ K) : slotCount t ≤ K := by
  cases hstep with
  | acquire i hi hK =>
    have hc := countP_set_add holdsSlot s i TaskStatus.running TaskStatus.pending hi
    simp only [holdsSlot, if_true, if_false] at hc
    simp only [slotCount] at *
    omega
  | work i ok hi =>
    have hc := countP_set_add holdsSlot s i (TaskStatus.worked ok) TaskStatus.running hi
    simp only [holdsSlot, if_true] at hc
    simp only [slotCount] at *
    omega
  | release i ok hi =>
    have hc := countP_set_add holdsSlot s i (TaskStatus.finished ok)
      (TaskStatus.worked ok) hi
    simp [holdsSlot] at hc
    simp only [slotCount] at *
    omega

theorem slotCount_replicate_pending (N : Nat) :
    slotCount (List.replicate N TaskStatus.pending) = 0 := by
  simp only [slotCount]
  refine List.countP_eq_zero.mpr ?_
  intro st hst
  have := (List.mem_replicate.mp hst).2
  subst this
  simp [holdsSlot]

theorem slotCount_reachable_le {K N : Nat} {s : List TaskStatus}
    (h : PoolReachable K N s) : slotCount s ≤ K := by
  induction h with
  | refl => simp [slotCount_replicate_pending]
  | tail hsteps hstep ih => exact slotCount_le_of_step hstep ih

theorem slotCount_eq_zero_of_batchDone (s : List TaskStatus) (h : batchDone s) :
    slotCount s = 0 := by
  simp only [slotCount]
  refine List.countP_eq_zero.mpr ?_
  intro st hst
  obtain ⟨ok, hok⟩ := h st hst
  subst hok
  simp [holdsSlot]

theorem doneUpTo_zero (fate : Nat → Bool) (N : Nat) :
    doneUpTo fate N 0 = List.replicate N TaskStatus.pending := by
  refine List.eq_replicate.mpr ⟨by simp [doneUpTo], ?_⟩
  intro b hb
  simp only [doneUpTo, List.mem_map, List.mem_range] at hb
  obtain ⟨k, _, hk⟩ := hb
  simpa using hk.symm

theorem doneUpTo_length (fate : Nat → Bool) (N j : Nat) :
    (doneUpTo fate N j).length = N := by
  simp [doneUpTo]

theorem doneUpTo_getElem? (fate : Nat → Bool) (N j k : Nat) (h : k < N) :
    (doneUpTo fate N j)[k]? =
      some (if k < j then TaskStatus.finished (fate k) else TaskStatus.pending) := by
  simp [doneUpTo, List.getElem?_map, List.getElem?_range h]

theorem slotCount_doneUpTo (fate : Nat → Bool) (N j : Nat) :
    slotCount (doneUpTo fate N j) = 0 := by
  simp only [slotCount]
  refine List.countP_eq_zero.mpr ?_
  intro st hst
  simp only [doneUpTo, List.mem_map, List.mem_range] at hst
  obtain ⟨k, _, hk⟩ := hst
  subst hk
  by_cases hkj : k < j <;> simp [hkj, holdsSlot]

theorem doneUpTo_set (fate : Nat → Bool) (N j : Nat) (hj : j < N) :
    (doneUpTo fate N j).set j (TaskStatus.finished (fate j)) =
      doneUpTo fate N (j+1) := by
  refine List.ext_getElem?_iff.mpr ?_
  intro k
  by_cases hkN : k < N
  · by_cases hkj : j = k
    · subst hkj
      rw [List.getElem?_set_eq (by rw [doneUpTo_length]; exact hj),
        doneUpTo_getElem? fate N (j+1) j hkN]
      simp
    · rw [List.getElem?_set_ne hkj, doneUpTo_getElem? fate N j k hkN,
        doneUpTo_getElem? fate N (j+1) k hkN]
      by_cases h2 : k < j
      · simp [h2, Nat.lt_succ_of_lt h2]
      · have h3 : ¬ k < j + 1 := by omega
        simp [h2, h3]
  · have h1 : (doneUpTo fate N j).length ≤ k := by
      rw [doneUpTo_length]; omega
    have h2 : (doneUpTo fate N (j+1)).length ≤ k := by
      rw [doneUpTo_length]; omega
    rw [List.getElem?_eq_none (by simpa using h1), List.getElem?_eq_none h2]

theorem doneUpTo_step (K N : Nat) (fate : Nat → Bool) (j : Nat)
    (hj : j < N) (hK : 0 < K) :
    Relation.ReflTransGen (PoolStep K) (doneUpTo fate N j)
      (doneUpTo fate N (j+1)) := by
  have hlen : j < (doneUpTo fate N j).length := by rw [doneUpTo_length]; exact hj
  have hget : (doneUpTo fate N j)[j]? = some TaskStatus.pending := by
    rw [doneUpTo_getElem? fate N j j hj]
    simp
  have hcount : slotCount (doneUpTo fate N j) < K := by
    rw [slotCount_doneUpTo]; exact hK
  have step1 : PoolStep K (doneUpTo fate N j)
      ((doneUpTo fate N j).set j TaskStatus.running) :=
    PoolStep.acquire _ j hget hcount
  have hget2 : ((doneUpTo fate N j).set j TaskStatus.running)[j]? =
      some TaskStatus.running :=
    List.getElem?_set_eq hlen
  have step2 : PoolStep K ((doneUpTo fate N j).set j TaskStatus.running)
      (((doneUpTo fate N j).set j TaskStatus.running).set j
        (TaskStatus.worked (fate j))) :=
    PoolStep.work _ j (fate j) hget2
  have hget3 : (((doneUpTo fate N j).set j TaskStatus.running).set j
      (TaskStatus.worked (fate j)))[j]? = some (TaskStatus.worked (fate j)) :=
    List.getElem?_set_eq (by simpa using hlen)
  have step3 : PoolStep K (((doneUpTo fate N j).set j TaskStatus.running).set j
      (TaskStatus.worked (fate j)))
      ((((doneUpTo fate N j).set j TaskStatus.running).set j
        (TaskStatus.worked (fate j))).set j (TaskStatus.finished (fate j))) :=
    PoolStep.release _ j (fate j) hget3
  have hcollapse : (((doneUpTo fate N j).set j TaskStatus.running).set j
      (TaskStatus.worked (fate j))).set j (TaskStatus.finished (fate j)) =
      doneUpTo fate N (j+1) := by
    rw [List.set_set, List.set_set]
    exact doneUpTo_set fate N j hj
  have hchain : Relation.ReflTransGen (PoolStep K) (doneUpTo fate N j)
      ((((doneUpTo fate N j).set j TaskStatus.running).set j
        (TaskStatus.worked (fate j))).set j (TaskStatus.finished (fate j))) :=
    Relation.ReflTransGen.head step1
      (Relation.ReflTransGen.head step2 (Relation.ReflTransGen.single step3))
  rw [hcollapse] at hchain
  exact hchain

theorem doneUpTo_reachable (K N : Nat) (fate : Nat → Bool) (hK : 0 < K) :
    ∀ j, j ≤ N → PoolReachable K N (doneUpTo fate N j)
  | 0, _ => by
    unfold PoolReachable
    rw [doneUpTo_zero]
  | j+1, h => by
    exact Relation.ReflTransGen.trans
      (doneUpTo_reachable K N fate hK j (by omega))
      (doneUpTo_step K N fate j (by omega) hK)

mutual

theorem walkEntry_ok (recursive : Bool) (rootDir : String) :
    (e : Entry) → (pre : String) → rootDir.length < (pre ++ "/").length →
    walkEntry recursive rootDir pre e =
      Except.ok ((visitedUnder recursive pre e).filter isImageFile)
  | Entry.file name, pre, _ => by
    simp only [walkEntry, visitedUnder, List.filter]
    cases h : isImageFile (pre ++ "/" ++ name) <;> simp [h]
  | Entry.dir name children, pre, h => by
    have hlen : rootDir.length < ((pre ++ "/" ++ name) ++ "/").length := by
      simp only [String.length_append] at h ⊢
      omega
    have hne : (pre ++ "/" ++ name) ≠ rootDir := by
      intro hEq
      have hlen2 : (pre ++ "/" ++ name).length = rootDir.length := by rw [hEq]
      simp only [String.length_append] at h hlen2
      omega
    have ih := walkChildren_ok recursive rootDir children (pre ++ "/" ++ name) hlen
    cases hr : recursive with
    | false =>
      simp only [walkEntry, visitedUnder, walkFuncOnDir]
      simp [hne]
    | true =>
      rw [hr] at ih
      simp only [walkEntry, visitedUnder, walkFuncOnDir]
      simp [ih]

theorem walkChildren_ok (recursive : Bool) (rootDir : String) :
    (l : List Entry) → (pre : String) → rootDir.length < (pre ++ "/").length →
    walkChildren recursive rootDir pre l =
      Except.ok ((visitedUnderList recursive pre l).filter isImageFile)
  | [], _, _ => by simp [walkChildren, visitedUnderList]
  | e :: rest, pre, h => by
    have ih1 := walkEntry_ok recursive rootDir e pre h
    have ih2 := walkChildren_ok recursive rootDir rest pre h
    simp only [walkChildren, visitedUnderList, ih1, ih2, List.filter_append]
    rfl

end

theorem visitedUnderList_false_eq_direct (dir : String) :
    ∀ tree : List Entry, visitedUnderList false dir tree = directFiles dir tree
  | [] => rfl
  | Entry.file name :: rest => by
    simp [visitedUnderList, visitedUnder, directFiles,
      visitedUnderList_false_eq_direct dir rest]
  | Entry.dir name children :: rest => by
    simp [visitedUnderList, visitedUnder, directFiles,
      visitedUnderList_false_eq_direct dir rest]

/-! ## Claims -/

/-- C2: for every image with positive width and height and positive
maxima, if the width and height are within the maxima then `resizeImage`
returns the input image itself and the computed target size is the input
size unchanged (no upscaling ever). -/
theorem resizeImage_noop (img : Img) (maxW maxH : Int)
    (hw : 0 < img.width) (hh : 0 < img.height) (hmw : 0 < maxW) (hmh : 0 < maxH)
    (h1 : img.width ≤ maxW) (h2 : img.height ≤ maxH) :
    resizeImage img maxW maxH = img ∧
      computeTargetSize img.width img.height maxW maxH = (img.width, img.height) := by
  constructor
  · simp [resizeImage, h1, h2]
  · simp [computeTargetSize, h1, h2]

/-- Witness for C2 at the concrete image 100x50 with maxima 200x100. -/
theorem resizeImage_noop_witness :
    ((0:Int) < 100 ∧ (0:Int) < 50 ∧ (0:Int) < 200 ∧ (0:Int) < 100 ∧
      (100:Int) ≤ 200 ∧ (50:Int) ≤ 100) ∧
    (resizeImage { width := 100, height := 50, pixels := 7 } 200 100 =
        { width := 100, height := 50, pixels := 7 } ∧
      computeTargetSize 100 50 200 100 = (100, 50)) := by
  refine ⟨by decide, ?_⟩
  exact resizeImage_noop { width := 100, height := 50, pixels := 7 } 200 100
    (by decide) (by decide) (by decide) (by decide) (by decide) (by decide)

/-- C10: the PNG branch of `saveImage` is completely independent of the
quality parameter — any two qualities produce the same save effect, and
the PNG encoder receives no quality option at all. -/
theorem saveImage_png_ignores_quality (img : Img) (path : String) (q1 q2 : Int) :
    saveImage img path ("png") q1 = saveImage img path ("png") q2 ∧
      (saveImage img path ("png") q1).jpegQuality = none := by
  refine ⟨rfl, rfl⟩

/-- Counterexample for C3: the target size is computed in `float64`, so
it does not always equal the exact formula floor(dim * min(maxW/w,
maxH/h)) — a 22x10 image resized into 15x1000 yields width 14 where the
exact formula yields 15. Moreover, without a magnitude restriction even
the bounding-box conjunct fails: at width 35797732559622390 with
maxWidth 31289044924426403 the computed width exceeds maxWidth. -/
theorem computeTargetSize_float_diverges :
    computeTargetSize 22 10 15 1000 = (14, 6) ∧
    specTargetSize 22 10 15 1000 = (15, 6) ∧
    computeTargetSize 22 10 15 1000 ≠ specTargetSize 22 10 15 1000 ∧
    computeTargetSize 35797732559622390 1 31289044924426403 1000000000 =
      (31289044924426404, 0) ∧
    31289044924426403 <
      (computeTargetSize 35797732559622390 1 31289044924426403 1000000000).1 := by
  have hsmall : computeTargetSize 22 10 15 1000 = (14, 6) := by
    refine computeTargetSize_eval 22 10 15 1000 22 10 15 1000
      ((6141272219141585:ℚ)/9007199254740992) 100
      ((6141272219141585:ℚ)/9007199254740992)
      ((8444249301319679:ℚ)/562949953421312)
      ((7676590273926981:ℚ)/1125899906842624) 14 6
      (by decide) ?_ ?_ ?_ ?_ ?_ ?_ ?_ ?_ ?_ ?_ ?_
    · rw [roundFloat64_intCast 22 (by norm_num) (by norm_num)]
      norm_num
    · rw [roundFloat64_intCast 10 (by norm_num) (by norm_num)]
      norm_num
    · rw [roundFloat64_intCast 15 (by norm_num) (by norm_num)]
      norm_num
    · rw [roundFloat64_intCast 1000 (by norm_num) (by norm_num)]
      norm_num
    · rw [roundFloat64_eq_of_rte _ (-1) (by norm_num) (by norm_num) (by norm_num),
        roundTiesEven_eq_down _ 6141272219141585 (by norm_num) (by norm_num)]
      norm_num
    · have h : (1000:ℚ) / (10:ℚ) = ((100:Int):ℚ) := by norm_num
      rw [h, roundFloat64_intCast 100 (by norm_num) (by norm_num)]
      norm_num
    · norm_num
    · rw [roundFloat64_eq_of_rte _ 3 (by norm_num) (by norm_num) (by norm_num),
        roundTiesEven_eq_down _ 8444249301319679 (by norm_num) (by norm_num)]
      norm_num
    · rw [roundFloat64_eq_of_rte _ 2 (by norm_num) (by norm_num) (by norm_num),
        roundTiesEven_eq_down _ 7676590273926981 (by norm_num) (by norm_num)]
      norm_num
    · exact goTrunc_eq_of _ 14 (by norm_num) (by norm_num) (by norm_num)
    · exact goTrunc_eq_of _ 6 (by norm_num) (by norm_num) (by norm_num)
  have hspec : specTargetSize 22 10 15 1000 = (15, 6) := by
    simp only [specTargetSize]
    have hmin : min (((15:Int):ℚ)/((22:Int):ℚ)) (((1000:Int):ℚ)/((10:Int):ℚ)) =
        (15:ℚ)/22 := by
      rw [min_eq_left (by norm_num)]
      norm_num
    rw [hmin]
    have hfw : ⌊((22:Int):ℚ) * ((15:ℚ)/22)⌋ = 15 := by
      rw [Int.floor_eq_iff]
      norm_num
    have hfh : ⌊((10:Int):ℚ) * ((15:ℚ)/22)⌋ = 6 := by
      rw [Int.floor_eq_iff]
      norm_num
    rw [hfw, hfh]
  have hhuge : computeTargetSize 35797732559622390 1 31289044924426403 1000000000 =
      (31289044924426404, 0) := by
    refine computeTargetSize_eval 35797732559622390 1 31289044924426403 1000000000
      (35797732559622392:ℚ) 1 (31289044924426404:ℚ) 1000000000
      ((7872751763130769:ℚ)/9007199254740992) 1000000000
      ((7872751763130769:ℚ)/9007199254740992) (31289044924426404:ℚ)
      ((7872751763130769:ℚ)/9007199254740992) 31289044924426404 0
      (by decide) ?_ ?_ ?_ ?_ ?_ ?_ ?_ ?_ ?_ ?_ ?_
    · rw [roundFloat64_eq_of_rte _ 54 (by norm_num) (by norm_num) (by norm_num),
        roundTiesEven_eq_tie_odd _ 8949433139905597 (by norm_num) (by decide)]
      norm_num
    · rw [roundFloat64_intCast 1 (by norm_num) (by norm_num)]
      norm_num
    · rw [roundFloat64_eq_of_rte _ 54 (by norm_num) (by norm_num) (by norm_num),
        roundTiesEven_eq_up _ 7822261231106600 (by norm_num) (by norm_num) (by norm_num)]
      norm_num
    · rw [roundFloat64_intCast 1000000000 (by norm_num) (by norm_num)]
      norm_num
    · rw [roundFloat64_eq_of_rte _ (-1) (by norm_num) (by norm_num) (by norm_num),
        roundTiesEven_eq_down _ 7872751763130769 (by norm_num) (by norm_num)]
      norm_num
    · have h : (1000000000:ℚ) / (1:ℚ) = ((1000000000:Int):ℚ) := by norm_num
      rw [h, roundFloat64_intCast 1000000000 (by norm_num) (by norm_num)]
      norm_num
    · norm_num
    · rw [roundFloat64_eq_of_rte _ 54 (by norm_num) (by norm_num) (by norm_num),
        roundTiesEven_eq_up _ 7822261231106600 (by norm_num) (by norm_num) (by norm_num)]
      norm_num
    · rw [roundFloat64_eq_of_rte _ (-1) (by norm_num) (by norm_num) (by norm_num),
        roundTiesEven_eq_down _ 7872751763130769 (by norm_num) (by norm_num)]
      norm_num
    · exact goTrunc_eq_of _ 31289044924426404 (by norm_num) (by norm_num) (by norm_num)
    · exact goTrunc_eq_of _ 0 (by norm_num) (by norm_num) (by norm_num)
  refine ⟨hsmall, hspec, ?_, hhuge, ?_⟩
  · rw [hsmall, hspec]
    decide
  · rw [hhuge]
    norm_num

/-- C3 (amended): the target size is the IEEE-binary64 evaluation of the
spec's formula, which can differ from the exact floor value; for every
positive configuration with all four quantities at most 2^51 (covering
every realistic image dimension) where resize is needed, the dimensions
computed by `resizeImage` are exactly `computeTargetSize`'s float64
results and satisfy the bounding-box and no-upscaling bounds: the target
width is at most maxWidth and at most the original width, the target
height at most maxHeight and at most the original height. -/
theorem resizeImage_scales (img : Img) (maxW maxH : Int)
    (hw : 0 < img.width) (hh : 0 < img.height) (hmw : 0 < maxW) (hmh : 0 < maxH)
    (hw51 : img.width ≤ 2 ^ 51) (hh51 : img.height ≤ 2 ^ 51)
    (hmw51 : maxW ≤ 2 ^ 51) (hmh51 : maxH ≤ 2 ^ 51)
    (hneed : maxW < img.width ∨ maxH < img.height) :
    (resizeImage img maxW maxH).width =
        (computeTargetSize img.width img.height maxW maxH).1 ∧
      (resizeImage img maxW maxH).height =
        (computeTargetSize img.width img.height maxW maxH).2 ∧
      (computeTargetSize img.width img.height maxW maxH).1 ≤ maxW ∧
      (computeTargetSize img.width img.height maxW maxH).2 ≤ maxH ∧
      (computeTargetSize img.width img.height maxW maxH).1 ≤ img.width ∧
      (computeTargetSize img.width img.height maxW maxH).2 ≤ img.height := by
  have hcond : ¬ (img.width ≤ maxW ∧ img.height ≤ maxH) := by omega
  have hpow53 : (2:Int) ^ 51 < 2 ^ 53 := by norm_num
  have hW53 : img.width < 2 ^ 53 := by omega
  have hH53 : img.height < 2 ^ 53 := by omega
  have hMW53 : maxW < 2 ^ 53 := by omega
  have hMH53 : maxH < 2 ^ 53 := by omega
  have hWq : (0:ℚ) < (img.width : ℚ) := by exact_mod_cast hw
  have hHq : (0:ℚ) < (img.height : ℚ) := by exact_mod_cast hh
  have hMWq : (0:ℚ) < (maxW : ℚ) := by exact_mod_cast hmw
  have hMHq : (0:ℚ) < (maxH : ℚ) := by exact_mod_cast hmh
  have hC : computeTargetSize img.width img.height maxW maxH =
      (goTrunc (roundFloat64 ((img.width:ℚ) *
        (if roundFloat64 ((maxW:ℚ) / (img.width:ℚ)) <
            roundFloat64 ((maxH:ℚ) / (img.height:ℚ))
         then roundFloat64 ((maxW:ℚ) / (img.width:ℚ))
         else roundFloat64 ((maxH:ℚ) / (img.height:ℚ))))),
       goTrunc (roundFloat64 ((img.height:ℚ) *
        (if roundFloat64 ((maxW:ℚ) / (img.width:ℚ)) <
            roundFloat64 ((maxH:ℚ) / (img.height:ℚ))
         then roundFloat64 ((maxW:ℚ) / (img.width:ℚ))
         else roundFloat64 ((maxH:ℚ) / (img.height:ℚ)))))) := by
    simp only [computeTargetSize]
    rw [if_neg hcond, roundFloat64_intCast img.width hw hW53,
      roundFloat64_intCast img.height hh hH53,
      roundFloat64_intCast maxW hmw hMW53, roundFloat64_intCast maxH hmh hMH53]
  set s1 := roundFloat64 ((maxW:ℚ) / (img.width:ℚ)) with hs1def
  set s2 := roundFloat64 ((maxH:ℚ) / (img.height:ℚ)) with hs2def
  set scl := if s1 < s2 then s1 else s2 with hscldef
  have hs1pos : 0 < s1 := roundFloat64_pos _ (div_pos hMWq hWq)
  have hs2pos : 0 < s2 := roundFloat64_pos _ (div_pos hMHq hHq)
  have hsclpos : 0 < scl := by
    rw [hscldef]
    split_ifs <;> assumption
  have hscl_le_s1 : scl ≤ s1 := by
    rw [hscldef]
    split_ifs with h
    · exact le_rfl
    · exact le_of_not_lt h
  have hscl_le_s2 : scl ≤ s2 := by
    rw [hscldef]
    split_ifs with h
    · exact h.le
    · exact le_rfl
  have hs1ub : s1 ≤ (maxW:ℚ) / (img.width:ℚ) * (1 + 2 ^ (-53:ℤ)) :=
    roundFloat64_le_mul _ (div_pos hMWq hWq)
  have hs2ub : s2 ≤ (maxH:ℚ) / (img.height:ℚ) * (1 + 2 ^ (-53:ℤ)) :=
    roundFloat64_le_mul _ (div_pos hMHq hHq)
  have hWs1 : (img.width:ℚ) * s1 ≤ (maxW:ℚ) * (1 + 2 ^ (-53:ℤ)) := by
    calc (img.width:ℚ) * s1
        ≤ (img.width:ℚ) * ((maxW:ℚ) / (img.width:ℚ) * (1 + 2 ^ (-53:ℤ))) :=
          mul_le_mul_of_nonneg_left hs1ub hWq.le
      _ = (maxW:ℚ) * (1 + 2 ^ (-53:ℤ)) := by
          rw [← mul_assoc, mul_comm ((img.width:ℚ)) ((maxW:ℚ) / (img.width:ℚ)),
            div_mul_cancel₀ _ (ne_of_gt hWq)]
  have hHs2 : (img.height:ℚ) * s2 ≤ (maxH:ℚ) * (1 + 2 ^ (-53:ℤ)) := by
    calc (img.height:ℚ) * s2
        ≤ (img.height:ℚ) * ((maxH:ℚ) / (img.height:ℚ) * (1 + 2 ^ (-53:ℤ))) :=
          mul_le_mul_of_nonneg_left hs2ub hHq.le
      _ = (maxH:ℚ) * (1 + 2 ^ (-53:ℤ)) := by
          rw [← mul_assoc, mul_comm ((img.height:ℚ)) ((maxH:ℚ) / (img.height:ℚ)),
            div_mul_cancel₀ _ (ne_of_gt hHq)]
  have hscl_le_one : scl ≤ 1 + 2 ^ (-53:ℤ) := by
    rcases hneed with hc | hc
    · refine le_trans hscl_le_s1 (le_trans hs1ub ?_)
      have hd : (maxW:ℚ) / (img.width:ℚ) ≤ 1 := by
        rw [div_le_one hWq]
        exact_mod_cast hc.le
      calc (maxW:ℚ) / (img.width:ℚ) * (1 + 2 ^ (-53:ℤ))
          ≤ 1 * (1 + 2 ^ (-53:ℤ)) :=
            mul_le_mul_of_nonneg_right hd (by positivity)
        _ = 1 + 2 ^ (-53:ℤ) := one_mul _
    · refine le_trans hscl_le_s2 (le_trans hs2ub ?_)
      have hd : (maxH:ℚ) / (img.height:ℚ) ≤ 1 := by
        rw [div_le_one hHq]
        exact_mod_cast hc.le
      calc (maxH:ℚ) / (img.height:ℚ) * (1 + 2 ^ (-53:ℤ))
          ≤ 1 * (1 + 2 ^ (-53:ℤ)) :=
            mul_le_mul_of_nonneg_right hd (by positivity)
        _ = 1 + 2 ^ (-53:ℤ) := one_mul _
  have hres : resizeImage img maxW maxH =
      imagingResize img (computeTargetSize img.width img.height maxW maxH).1
        (computeTargetSize img.width img.height maxW maxH).2 := by
    rw [resizeImage, if_neg hcond]
  refine ⟨?_, ?_, ?_, ?_, ?_, ?_⟩
  · rw [hres]
    rfl
  · rw [hres]
    rfl
  · rw [hC]
    exact floatProd_trunc_le _ _ maxW hWq hsclpos hmw hmw51
      (le_trans (mul_le_mul_of_nonneg_left hscl_le_s1 hWq.le) hWs1)
  · rw [hC]
    exact floatProd_trunc_le _ _ maxH hHq hsclpos hmh hmh51
      (le_trans (mul_le_mul_of_nonneg_left hscl_le_s2 hHq.le) hHs2)
  · rw [hC]
    exact floatProd_trunc_le _ _ img.width hWq hsclpos hw hw51
      (mul_le_mul_of_nonneg_left hscl_le_one hWq.le)
  · rw [hC]
    exact floatProd_trunc_le _ _ img.height hHq hsclpos hh hh51
      (mul_le_mul_of_nonneg_left hscl_le_one hHq.le)

/-- Witness for C3 at the spec's example: a 100x50 image resized into a
50x100 bounding box. -/
theorem resizeImage_scales_witness :
    ((0:Int) < 100 ∧ (0:Int) < 50 ∧ (0:Int) < 50 ∧ (0:Int) < 100 ∧
      (100:Int) ≤ 2 ^ 51 ∧ (50:Int) ≤ 2 ^ 51 ∧ (50:Int) ≤ 2 ^ 51 ∧
      (100:Int) ≤ 2 ^ 51 ∧ ((50:Int) < 100 ∨ (100:Int) < 50)) ∧
    ((resizeImage { width := 100, height := 50, pixels := 7 } 50 100).width =
        (computeTargetSize 100 50 50 100).1 ∧
      (resizeImage { width := 100, height := 50, pixels := 7 } 50 100).height =
        (computeTargetSize 100 50 50 100).2 ∧
      (computeTargetSize 100 50 50 100).1 ≤ 50 ∧
      (computeTargetSize 100 50 50 100).2 ≤ 100 ∧
      (computeTargetSize 100 50 50 100).1 ≤ 100 ∧
      (computeTargetSize 100 50 50 100).2 ≤ 50) := by
  refine ⟨by norm_num, ?_⟩
  exact resizeImage_scales { width := 100, height := 50, pixels := 7 } 50 100
    (by norm_num) (by norm_num) (by norm_num) (by norm_num) (by norm_num)
    (by norm_num) (by norm_num) (by norm_num) (Or.inl (by norm_num))

/-- Counterexample for C1: a BMP input processed in format-preserving
mode keeps its ".bmp" basename but is encoded by the JPEG encoder, so
the output's encoded container format differs from the input's. -/
theorem sameFormat_reencodes_bmp :
    inputContainerFormat ("photo.bmp") = ImgFormat.bmp ∧
    (ProcessImageWithSameFormat (some { width := 10, height := 10, pixels := 3 })
        ("photo.bmp") exampleConfigPng).map SaveResult.encoding = some ImgFormat.jpeg ∧
    (ProcessImageWithSameFormat (some { width := 10, height := 10, pixels := 3 })
        ("photo.bmp") exampleConfigPng).map SaveResult.encoding ≠
      some (inputContainerFormat ("photo.bmp")) := by
  decide

/-- C1 (amended): in format-preserving mode the encoded container format
is PNG exactly when the lowercased input extension is ".png" and JPEG for
every other input (so it matches the input's own format only for JPEG and
PNG inputs), and the result never depends on the configured
output-format option. -/
theorem sameFormat_encoding_spec (img : Img) (decoded : Option Img)
    (inputPath : String) (cfg : Config) :
    (ProcessImageWithSameFormat (some img) inputPath cfg).map SaveResult.encoding =
      some (if filepathExt (stringToLower inputPath) = ".png" then ImgFormat.png
        else ImgFormat.jpeg) ∧
    (∀ fmt, ProcessImageWithSameFormat decoded inputPath
        { cfg with OutputFormat := fmt } =
      ProcessImageWithSameFormat decoded inputPath cfg) := by
  constructor
  · by_cases h : filepathExt (stringToLower inputPath) = ".png"
    · simp +decide [ProcessImageWithSameFormat, saveImage, h]
    · simp [ProcessImageWithSameFormat, saveImage, h]
  · intro fmt
    cases decoded <;> simp [ProcessImageWithSameFormat]

/-- C4: the mode decision is global over the whole discovered batch —
with at least one HEIC/HEIF path every discovered file is dispatched in
conversion mode, with none every discovered file is dispatched in
format-preserving mode, and in both cases the dispatched list is exactly
the discovered list. -/
theorem batchPlan_global_mode (files : List String) :
    batchPlan files =
      (if (separateImageFiles files).1 = [] then Mode.preserving else Mode.conversion,
       files) := by
  by_cases h : (separateImageFiles files).1 = []
  · simp only [batchPlan, h, List.length_nil, if_neg (lt_irrefl 0), if_pos]
    rw [separateImageFiles_snd_eq files h]
  · have hp : 0 < (separateImageFiles files).1.length := List.length_pos.mpr h
    simp [batchPlan, hp, h]

/-- C5: conversion-mode output paths are the output directory joined with
the basename stripped of its extension plus the target extension (".jpg"
for jpg, ".png" for png, ".jpg" for anything else), preserving-mode
output paths are the output directory joined with the basename verbatim,
and the spec's concrete examples evaluate accordingly. -/
theorem outputPath_spec :
    (∀ p dir fmt, generateOutputPath p dir fmt =
      filepathJoin dir (basenameNoExt p ++ specTargetExt fmt)) ∧
    (∀ p dir fmt, fmt ≠ "jpg" → fmt ≠ "png" →
      generateOutputPath p dir fmt = generateOutputPath p dir ("jpg")) ∧
    (∀ p dir, generateOutputPathWithSameFormat p dir =
      filepathJoin dir (filepathBase p)) ∧
    generateOutputPath ("/x/y/image.jpeg") ("/out") ("png") = "/out/image.png" ∧
    generateOutputPathWithSameFormat ("/x/y/image.PNG") ("/out") = "/out/image.PNG" := by
  refine ⟨fun p dir fmt => rfl, ?_, fun p dir => rfl, by decide, by decide⟩
  intro p dir fmt h1 h2
  simp [generateOutputPath, h1, h2]

/-- Witness for C5's default-extension clause at the unrecognized format
"gif". -/
theorem outputPath_spec_witness :
    (("gif" : String) ≠ "jpg" ∧ ("gif" : String) ≠ "png") ∧
    generateOutputPath ("/x/y/image.jpeg") ("/out") ("gif") =
      generateOutputPath ("/x/y/image.jpeg") ("/out") ("jpg") := by
  refine ⟨by decide, ?_⟩
  exact outputPath_spec.2.1 ("/x/y/image.jpeg") ("/out") ("gif") (by decide) (by decide)

/-- C6: discovery returns exactly the visited files whose case-insensitive
extension lies in the fixed accepted set, never reports an error —
including when it skips directories — and in non-recursive mode the
visited files are exactly the files directly inside the root directory;
the spec's classifier example evaluates accordingly in both modes. -/
theorem getImageFiles_spec (dir : String) (tree : List Entry) :
    (∀ recursive, getImageFiles dir recursive tree =
      Except.ok ((visitedUnderList recursive dir tree).filter isImageFile)) ∧
    getImageFiles dir false tree =
      Except.ok ((directFiles dir tree).filter isImageFile) ∧
    getImageFiles ("root") false exampleTree =
      Except.ok ["root/a.jpg", "root/b.heic", "root/c.png"] ∧
    getImageFiles ("root") true exampleTree =
      Except.ok ["root/a.jpg", "root/b.heic", "root/c.png", "root/sub/e.jpg"] := by
  have hlen : dir.length < (dir ++ "/").length := by
    rw [String.length_append]
    have h1 : ("/" : String).length = 1 := rfl
    omega
  have hmain : ∀ recursive, getImageFiles dir recursive tree =
      Except.ok ((visitedUnderList recursive dir tree).filter isImageFile) :=
    fun recursive => walkChildren_ok recursive dir tree dir hlen
  refine ⟨hmain, ?_, ?_, ?_⟩
  · rw [hmain false, visitedUnderList_false_eq_direct]
  · simp +decide [getImageFiles, walkChildren, walkEntry, exampleTree, walkFuncOnDir,
      Bind.bind, Except.bind]
  · simp +decide [getImageFiles, walkChildren, walkEntry, exampleTree, walkFuncOnDir,
      Bind.bind, Except.bind]

/-- Counterexample for C9: a decoded image of width 0 is not rejected —
`ProcessImage` succeeds on it, and the zero-width image flows through the
resize stage into the saved output. -/
theorem zeroWidth_flows_through :
    (ProcessImage (some { width := 0, height := 5, pixels := 0 }) ("photo.jpg")
        exampleConfigJpg).map (fun r => r.image.width) = some 0 ∧
    (ProcessImage (some { width := 0, height := 5, pixels := 0 }) ("photo.jpg")
        exampleConfigJpg).isSome = true := by
  decide

/-- C9 (amended): the pipeline performs no zero-dimension validation:
`ProcessImage` hands every decoded image to `resizeImage`, and whenever
both dimensions are at most the configured maxima — which in particular
holds for degenerate zero-dimension images whose other dimension is in
range — the early-return branch is taken, the scale divisions are never
reached, and the image is encoded unchanged. -/
theorem processImage_no_zero_guard (img : Img) (inputPath : String) (cfg : Config)
    (hw : img.width ≤ cfg.MaxWidth) (hh : img.height ≤ cfg.MaxHeight) :
    ProcessImage (some img) inputPath cfg =
      some (saveImage img (generateOutputPath inputPath cfg.OutputDir cfg.OutputFormat)
        cfg.OutputFormat cfg.Quality) := by
  simp [ProcessImage, resizeImage, hw, hh]

/-- Witness for C9's amended theorem at a zero-width decoded image. -/
theorem processImage_no_zero_guard_witness :
    ((0:Int) ≤ exampleConfigJpg.MaxWidth ∧ (5:Int) ≤ exampleConfigJpg.MaxHeight) ∧
    ProcessImage (some { width := 0, height := 5, pixels := 0 }) ("photo.jpg")
        exampleConfigJpg =
      some (saveImage { width := 0, height := 5, pixels := 0 }
        (generateOutputPath ("photo.jpg") (exampleConfigJpg.OutputDir)
          (exampleConfigJpg.OutputFormat))
        (exampleConfigJpg.OutputFormat) (exampleConfigJpg.Quality)) := by
  refine ⟨by decide, ?_⟩
  exact processImage_no_zero_guard { width := 0, height := 5, pixels := 0 }
    ("photo.jpg") exampleConfigJpg (by decide) (by decide)

/-- C7: `validateInputs` rejects exactly the configurations with a format
other than "jpg"/"png", a missing input directory, a quality outside
[1,100], a non-positive dimension, or a non-positive worker count; a
rejected configuration makes the run exit with code 1 before any file is
dispatched; and per-file processing failures never influence the exit
code. -/
theorem validation_gates_run :
    (∀ (fmt : String) (ex : Bool) (q w h k : Int),
      (validateInputs fmt ex q w h k).isSome = true ↔
        ((fmt ≠ "jpg" ∧ fmt ≠ "png") ∨ ex = false ∨ q < 1 ∨ 100 < q ∨
          w ≤ 0 ∨ h ≤ 0 ∨ k ≤ 0)) ∧
    (∀ env : RunEnv,
      (validateInputs env.outputFormat env.inputDirExists env.quality env.maxWidth
          env.maxHeight env.workers).isSome = true →
        runProcess env = { exitCode := 1, processed := [] }) ∧
    (∀ (env : RunEnv) (g : String → Bool),
      (runProcess { env with fileFails := g }).exitCode = (runProcess env).exitCode) := by
  refine ⟨?_, ?_, ?_⟩
  · intro fmt ex q w h k
    simp only [validateInputs]
    split_ifs with h1 h2 h3 h4 h5 <;> simp_all <;> omega
  · intro env hv
    obtain ⟨msg, hmsg⟩ := Option.isSome_iff_exists.mp hv
    simp [runProcess, hmsg]
  · intro env g
    simp only [runProcess]
    cases validateInputs env.outputFormat env.inputDirExists env.quality env.maxWidth
        env.maxHeight env.workers with
    | some msg => rfl
    | none =>
      simp only []
      by_cases hd : env.outputDirCreated
      · simp only [hd]
        cases env.scanResult with
        | error e => rfl
        | ok files =>
          by_cases hf : files.length = 0 <;> simp [hf]
      · simp [hd]

/-- Witness for C7's gating clause at a configuration whose quality flag
is 0. -/
theorem validation_gates_run_witness :
    (validateInputs (exampleBadEnv.outputFormat) (exampleBadEnv.inputDirExists)
        (exampleBadEnv.quality) (exampleBadEnv.maxWidth) (exampleBadEnv.maxHeight)
        (exampleBadEnv.workers)).isSome = true ∧
    runProcess exampleBadEnv = { exitCode := 1, processed := [] } := by
  refine ⟨by decide, ?_⟩
  exact validation_gates_run.2.1 exampleBadEnv (by decide)

/-- C8: for every task count N and worker bound K > 0, every reachable
pool state holds at most K concurrency slots; a state where every task is
finished holds no slot (each acquired slot was released, even for failed
tasks, whose release transition carries no success condition); and for
every prescription of per-task outcomes — including failing ones — the
pool can run to a state where all N tasks are terminal with exactly those
outcomes, so one task's failure never prevents the rest from completing,
and the barrier is reachable. -/
theorem workerPool_spec (K N : Nat) (fate : Nat → Bool) (hK : 0 < K) :
    (∀ s, PoolReachable K N s → slotCount s ≤ K) ∧
    (∀ s, batchDone s → slotCount s = 0) ∧
    (∃ s, PoolReachable K N s ∧ batchDone s ∧ s.length = N ∧
      ∀ (i : Nat) (h : i < s.length), s.get ⟨i, h⟩ = TaskStatus.finished (fate i)) := by
  refine ⟨fun s h => slotCount_reachable_le h, slotCount_eq_zero_of_batchDone, ?_⟩
  refine ⟨doneUpTo fate N N, doneUpTo_reachable K N fate hK N (le_refl N),
    ?_, doneUpTo_length fate N N, ?_⟩
  · intro st hst
    simp only [doneUpTo, List.mem_map, List.mem_range] at hst
    obtain ⟨k, hk, rfl⟩ := hst
    exact ⟨fate k, by simp [hk]⟩
  · intro i h
    have hiN : i < N := by
      have hl := doneUpTo_length fate N N
      omega
    have h3 : some ((doneUpTo fate N N)[i]) =
        some (if i < N then TaskStatus.finished (fate i) else TaskStatus.pending) := by
      rw [← List.getElem?_eq_getElem h, doneUpTo_getElem? fate N N i hiN]
    simp only [hiN, if_pos, Option.some_inj] at h3
    rw [List.get_eq_getElem]
    exact h3

/-- Witness for C8 with bound 2 and three tasks of which the middle one
fails. -/
theorem workerPool_spec_witness :
    (0:Nat) < 2 ∧
    ((∀ s, PoolReachable 2 3 s → slotCount s ≤ 2) ∧
      (∀ s, batchDone s → slotCount s = 0) ∧
      (∃ s, PoolReachable 2 3 s ∧ batchDone s ∧ s.length = 3 ∧
        ∀ (i : Nat) (h : i < s.length),
          s.get ⟨i, h⟩ = TaskStatus.finished (decide (i ≠ 1)))) := by
  exact ⟨by decide, workerPool_spec 2 3 (fun i => decide (i ≠ 1)) (by decide)⟩

end PictureTools
